import Mathlib

/-!
Shallow embedding of the AT-URI reference-resolution core of
`atproto-common` (`src/requests.ts`): the `AtURI` class (constructor,
`getSerialization`, `parse`, `toString`, `softRef`) and the record-key
validator `validateRecordKey`.

JavaScript conventions are made explicit:
* a value of TypeScript type `string` that may be `undefined` at runtime is
  an `Option String` (`none` = `undefined`);
* truthiness of such a value is `jsTruthy` (the only falsy strings are
  `undefined` and `""`);
* `a ?? b` on such values is `Option.orElse`, `a && b` is modelled by the
  explicit case splits at each use site;
* indexing past the end of an array yields `undefined`, and assigning past
  the end extends the array with holes that read back as `undefined`
  (`setSlot` / slot access via `List.getD _ _ none`);
* a thrown-and-uncaught runtime exception (e.g. calling `.split` on
  `undefined`) is the distinguished outcome `POutcome.fault`, as opposed to
  an `Err` result value (`POutcome.error`).
-/

namespace ATCommon

set_option maxRecDepth 100000

/-- Accumulator core of JS `String.prototype.split` with a one-character
separator: the current piece is accumulated in reverse and cut at each
separator occurrence. -/
def splitAux (sep : Char) : List Char → List Char → List (List Char)
  | [], acc => [acc.reverse]
  | c :: rest, acc =>
    if c = sep then acc.reverse :: splitAux sep rest []
    else splitAux sep rest (c :: acc)

/-- JS `s.split(sep)` for a one-character separator `sep` (no limit
argument): `"".split("/") = [""]`, `"a//b".split("/") = ["a","","b"]`. -/
def jsSplit (sep : Char) (s : String) : List String :=
  (splitAux sep s.data []).map String.mk

/-- `s.split("/").filter((x) => x)` from `getSerialization`: split on `/`
and discard the empty (falsy) tokens. -/
def splitNE (s : String) : List String :=
  (jsSplit '/' s).filter (fun x => x != "")

/-- JS truthiness of a `string | undefined` value: `undefined` and `""` are
falsy, every other string is truthy. -/
def jsTruthy : Option String → Bool
  | none => false
  | some s => s != ""

/-- Outcome of a JS function returning `Result<α, string>`: an `Ok` value,
an `Err` value, or an uncaught runtime exception (`fault`). -/
inductive POutcome (α : Type) where
  | ok : α → POutcome α
  | error : String → POutcome α
  | fault : POutcome α
deriving DecidableEq, Repr

/-- JS `a[i] = v` on an array modelled as `List (Option String)`: writing
past the end pads the array with holes (`none`). -/
def setSlot (l : List (Option String)) (i : Nat) (v : String) :
    List (Option String) :=
  if i < l.length then l.set i (some v)
  else l ++ List.replicate (i - l.length) none ++ [some v]

/-- The overlay loop of `getSerialization`:
`for (let i = 0; i < upperParts.length; i++) out_lowerParts[2+i] = upperParts[i]`. -/
def overlaySlots (lower : List (Option String)) (upper : List String) :
    List (Option String) :=
  upper.enum.foldl (fun acc p => setSlot acc (2 + p.1) p.2) lower

/-- An argument of TypeScript type `Stringifiable | string`: either a plain
string, or a `Stringifiable` object represented by the `Result` its
`toString()` method returns. -/
inductive StrInput where
  | str : String → StrInput
  | strf : Except String String → StrInput
deriving Repr

/-- The input coercion performed inside `parse`:
`typeof x == "string" ? x : x.okValue()` — a `Stringifiable` whose
`toString()` returned `Err` coerces to `undefined` (`okValue()` yields no
value on an `Err`). -/
def coerceInput : StrInput → Option String
  | .str s => some s
  | .strf (.ok s) => some s
  | .strf (.error _) => none

/-- The string value interpolated for a `string | undefined` in a JS
template literal: `undefined` prints as `"undefined"`. -/
def jsTemplate (o : Option String) : String := o.getD "undefined"

/-- The `AtURI` class: fields `authority`, `collection`, `rkey` as stored by
the constructor. `authority` is stored exactly as passed and can be
`undefined` at runtime (when `parse` reads past the end of the resolved
segment array); `collection` and `rkey` are normalised with `?? ""`. -/
structure AtURI where
  authority : Option String
  collection : String
  rkey : String
deriving DecidableEq, Repr

/-- The `AtURI` constructor
`(authority: string, collection?: string, rkey?: string)`:
throws (here: `Except.error`) on `collection` without `authority` or `rkey`
without `collection`, otherwise stores the fields with `collection ?? ""`
and `rkey ?? ""`. -/
def AtURI.make (authority collection rkey : Option String) :
    Except String AtURI :=
  if !jsTruthy authority && jsTruthy collection then
    .error "collection w/o authority"
  else if !jsTruthy collection && jsTruthy rkey then
    .error "rkey w/o collection"
  else
    .ok ⟨authority, collection.getD "", rkey.getD ""⟩

/-- `AtURI.getSerialization(uri, base?)`. Arguments are the runtime values
`parse` passes in, which may be `undefined` (`none`) despite the `string`
type annotations. `const lower = base ?? uri` and `const upper = base && uri`
are inlined: when `lower` is `undefined`, `lower.split` throws (`fault`);
the `if (upper)` merge block runs only when both `base` and `uri` are
truthy. -/
def AtURI.getSerialization (uri base : Option String) :
    POutcome (List (Option String)) :=
  match base.orElse (fun _ => uri) with
  | none => .fault
  | some lower =>
    let out_lowerParts := splitNE lower
    if out_lowerParts.length > 4 then
      .error ("Lower part count " ++ toString out_lowerParts.length ++
        " is greater than the maximum of 4")
    else if out_lowerParts.head? != some "at:" then
      .error ("Bad protocol '" ++ jsTemplate out_lowerParts.head? ++
        "', must be 'at:'")
    else
      match base with
      | none => .ok (out_lowerParts.map some)
      | some b =>
        if b == "" then .ok (out_lowerParts.map some)
        else
          match uri with
          | none => .ok (out_lowerParts.map some)
          | some u =>
            if u == "" then .ok (out_lowerParts.map some)
            else
              let upperParts := splitNE u
              if upperParts.head? == some "at:" then
                if upperParts.length > 4 then
                  .error ("part count > 4 in rooted upper '" ++ u ++ "'")
                else .ok (upperParts.map some)
              else if upperParts.length > 2 then
                .error ("too many parts in upper w/o authority '" ++ u ++ "'")
              else .ok (overlaySlots (out_lowerParts.map some) upperParts)

/-- `AtURI.parse(uri, base?)`: coerce both inputs
(`typeof x == "string" ? x : x.okValue()`), run `getSerialization`,
propagate its `Err`, then build the `AtURI` from segments 1–3 inside
`Result.from` (a constructor throw becomes an `Err` carrying the message). -/
def AtURI.parse (uri : StrInput) (base : Option StrInput) : POutcome AtURI :=
  match AtURI.getSerialization (coerceInput uri) (base.bind coerceInput) with
  | .fault => .fault
  | .error e => .error e
  | .ok parts =>
    match AtURI.make (parts.getD 1 none) (parts.getD 2 none)
        (parts.getD 3 none) with
    | .error m => .error m
    | .ok v => .ok v

/-- `AtURI.prototype.toString()`: `Err` when `authority` is falsy, else
`"at://" + authority`, appending `"/" + collection` when `collection` is
truthy and then `"/" + rkey` when `rkey` is truthy. -/
def AtURI.toString (u : AtURI) : Except String String :=
  if jsTruthy u.authority then
    if u.collection != "" then
      if u.rkey != "" then
        .ok ("at://" ++ u.authority.getD "" ++ "/" ++ u.collection ++ "/" ++
          u.rkey)
      else .ok ("at://" ++ u.authority.getD "" ++ "/" ++ u.collection)
    else .ok ("at://" ++ u.authority.getD "")
  else .error "no authority"

/-- The `SoftRef` record type, with the runtime values `softRef()` actually
stores in it (`repo` and `collection` both receive `this.authority`, which
can be `undefined` at runtime). -/
structure SoftRef where
  repo : Option String
  collection : Option String
  rkey : String
deriving DecidableEq, Repr

/-- `AtURI.prototype.softRef()` exactly as written in the source:
`{ repo: this.authority, collection: this.authority!, rkey: this.rkey! }`. -/
def AtURI.softRef (u : AtURI) : SoftRef :=
  { repo := u.authority, collection := u.authority, rkey := u.rkey }

/-- One character of the record-key character class `[A-Za-z0-9.\-_:~]`. -/
def rkeyCharOk (c : Char) : Bool :=
  ('A' ≤ c && c ≤ 'Z') || ('a' ≤ c && c ≤ 'z') || ('0' ≤ c && c ≤ '9') ||
    c = '.' || c = '-' || c = '_' || c = ':' || c = '~'

/-- `validateRecordKey(rkey)`: match against
`/^([A-Za-z0-9.\-_:~]{1,512})$/` and return `matched[0]` (the whole input,
since the match is anchored at both ends) or `null`. The anchored regex
matches exactly when the string has 1 to 512 characters, all from the
class. -/
def validateRecordKey (rkey : String) : Option String :=
  if 1 ≤ rkey.data.length && rkey.data.length ≤ 512 &&
      rkey.data.all rkeyCharOk then
    some rkey
  else none

/-! ## Helper lemmas about the split-and-filter primitive -/

theorem splitAux_sep_cons (sep : Char) (l acc : List Char) :
    splitAux sep (sep :: l) acc = acc.reverse :: splitAux sep l [] := by
  simp [splitAux]

theorem splitAux_no_sep (sep : Char) (l : List Char) (acc : List Char)
    (h : sep ∉ l) : splitAux sep l acc = [acc.reverse ++ l] := by
  induction l generalizing acc with
  | nil => simp [splitAux]
  | cons c rest ih =>
    rw [List.mem_cons, not_or] at h
    rw [splitAux, if_neg (fun hc => h.1 hc.symm), ih _ h.2]
    simp

theorem splitAux_append (sep : Char) (l₁ l₂ : List Char) (acc : List Char)
    (h : sep ∉ l₁) :
    splitAux sep (l₁ ++ sep :: l₂) acc =
      (acc.reverse ++ l₁) :: splitAux sep l₂ [] := by
  induction l₁ generalizing acc with
  | nil => simp [splitAux]
  | cons c rest ih =>
    rw [List.mem_cons, not_or] at h
    rw [List.cons_append, splitAux, if_neg (fun hc => h.1 hc.symm),
      ih _ h.2]
    simp

theorem data_append (s t : String) : (s ++ t).data = s.data ++ t.data := rfl

theorem mk_data (s : String) : String.mk s.data = s := rfl

theorem filter_ne_empty_cons (x : String) (l : List String) (hx : x ≠ "") :
    (x :: l).filter (fun y => y != "") = x :: l.filter (fun y => y != "") := by
  simp [List.filter_cons, hx]

/-- Shape of `splitNE` on a serialized authority-only reference. -/
theorem splitNE_auth (a : String) (ha : a ≠ "") (hs : '/' ∉ a.data) :
    splitNE ("at://" ++ a) = ["at:", a] := by
  have hdata : ("at://" ++ a).data =
      ['a', 't', ':'] ++ '/' :: ('/' :: a.data) := rfl
  rw [splitNE, jsSplit, hdata,
    splitAux_append '/' ['a', 't', ':'] _ [] (by decide),
    splitAux_sep_cons, splitAux_no_sep '/' a.data [] hs]
  simp [List.filter_cons, ha]

/-- Shape of `splitNE` on a serialized authority-and-collection reference. -/
theorem splitNE_auth_coll (a c : String) (ha : a ≠ "") (hc : c ≠ "")
    (hsa : '/' ∉ a.data) (hsc : '/' ∉ c.data) :
    splitNE ("at://" ++ a ++ "/" ++ c) = ["at:", a, c] := by
  have hdata : ("at://" ++ a ++ "/" ++ c).data =
      ['a', 't', ':'] ++ '/' :: ('/' :: (a.data ++ '/' :: c.data)) := by
    simp [data_append]
  rw [splitNE, jsSplit, hdata,
    splitAux_append '/' ['a', 't', ':'] _ [] (by decide),
    splitAux_sep_cons, splitAux_append '/' a.data _ [] hsa,
    splitAux_no_sep '/' c.data [] hsc]
  simp [List.filter_cons, ha, hc]

/-- Shape of `splitNE` on a fully serialized reference. -/
theorem splitNE_full (a c r : String) (ha : a ≠ "") (hc : c ≠ "")
    (hr : r ≠ "") (hsa : '/' ∉ a.data) (hsc : '/' ∉ c.data)
    (hsr : '/' ∉ r.data) :
    splitNE ("at://" ++ a ++ "/" ++ c ++ "/" ++ r) = ["at:", a, c, r] := by
  have hdata : ("at://" ++ a ++ "/" ++ c ++ "/" ++ r).data =
      ['a', 't', ':'] ++
        '/' :: ('/' :: (a.data ++ '/' :: (c.data ++ '/' :: r.data))) := by
    simp [data_append]
  rw [splitNE, jsSplit, hdata,
    splitAux_append '/' ['a', 't', ':'] _ [] (by decide),
    splitAux_sep_cons, splitAux_append '/' a.data _ [] hsa,
    splitAux_append '/' c.data _ [] hsc,
    splitAux_no_sep '/' r.data [] hsr]
  simp [List.filter_cons, ha, hc, hr]

/-- Every token kept by `splitNE` is non-empty. -/
theorem splitNE_mem_ne_empty (s : String) (x : String) (hx : x ∈ splitNE s) :
    x ≠ "" := by
  have := List.of_mem_filter hx
  simpa using this

theorem splitNE_empty : splitNE "" = [] := rfl

theorem jsTruthy_some (s : String) : jsTruthy (some s) = (s != "") := rfl

theorem jsTruthy_getD (o : Option String) :
    jsTruthy o = true ↔ o.getD "" ≠ "" := by
  cases o <;> simp [jsTruthy]

/-- A successful run of the constructor stores the fields verbatim
(normalised with `?? ""`) and certifies that neither invariant check
fired. -/
theorem make_ok_fields (a c r : Option String) (v : AtURI)
    (h : AtURI.make a c r = .ok v) :
    v = ⟨a, c.getD "", r.getD ""⟩ ∧
    (!jsTruthy a && jsTruthy c) = false ∧
    (!jsTruthy c && jsTruthy r) = false := by
  rw [AtURI.make] at h
  by_cases h1 : (!jsTruthy a && jsTruthy c) = true
  · simp [h1] at h
  · by_cases h2 : (!jsTruthy c && jsTruthy r) = true
    · simp [h1, h2] at h
    · simp [h1, h2] at h
      exact ⟨h.symm, Bool.eq_false_iff.mpr h1, Bool.eq_false_iff.mpr h2⟩

/-! ## Claim theorems -/

/-- Claim C1: `softRef()` is claimed to return
`{repo: authority, collection, rkey}` with the `collection` field equal to
the value's `collection` field. The source instead writes
`collection: this.authority!`, so the projection's `collection` slot always
receives the authority: on the value built by
`new AtURI("a.example", "com.example.thing")` the projection's `collection`
is `"a.example"`, not `"com.example.thing"`. -/
theorem softRef_duplicates_authority :
    (∀ u : AtURI, u.softRef = ⟨u.authority, u.authority, u.rkey⟩) ∧
    AtURI.make (some "a.example") (some "com.example.thing") none =
      .ok ⟨some "a.example", "com.example.thing", ""⟩ ∧
    (AtURI.softRef ⟨some "a.example", "com.example.thing", ""⟩).collection =
      some "a.example" ∧
    some "a.example" ≠
      some (AtURI.collection ⟨some "a.example", "com.example.thing", ""⟩) :=
  ⟨fun _ => rfl, rfl, rfl, by decide⟩

/-- Claim C9: the record-key validator is claimed (by the spec and by the
repository's own tests) to reject `"."` and `".."`; the anchored regex
`/^([A-Za-z0-9.\-_:~]{1,512})$/` contains `.` in its character class, so
the code accepts both. -/
theorem validateRecordKey_accepts_dots :
    validateRecordKey "." = some "." ∧ validateRecordKey ".." = some ".." :=
  by decide

/-- Claim C4: a failed string coercion is claimed to be propagated as the
parse outcome. In the source, `uas.okValue()!` turns the failed coercion
into `undefined`: with no base, `undefined.split("/")` throws an uncaught
TypeError (`fault`); with a truthy base the `undefined` makes `upper` falsy
and the failure is silently discarded (on either argument position) rather
than propagated. -/
theorem parse_coercion_failure_not_propagated :
    AtURI.parse (.strf (.error "boom")) none = POutcome.fault ∧
    AtURI.parse (.strf (.error "boom")) (some (.str "at://a.example")) =
      POutcome.ok ⟨some "a.example", "", ""⟩ ∧
    AtURI.parse (.str "at://a.example") (some (.strf (.error "boom"))) =
      POutcome.ok ⟨some "a.example", "", ""⟩ ∧
    AtURI.parse (.strf (.error "boom")) none ≠ POutcome.error "boom" ∧
    AtURI.parse (.strf (.error "boom")) (some (.str "at://a.example")) ≠
      POutcome.error "boom" :=
  ⟨rfl, by decide, by decide, by decide, by decide⟩

/-- Claim C2, counterexample: the value constructed by
`new AtURI("a/b")` satisfies the construction invariants (non-empty
authority, no collection, no rkey) and serializes to `"at://a/b"`, but
re-parsing that string yields authority `"a"` and collection `"b"`, not the
original fields. -/
theorem roundtrip_slash_counterexample :
    AtURI.make (some "a/b") none none = .ok ⟨some "a/b", "", ""⟩ ∧
    AtURI.toString ⟨some "a/b", "", ""⟩ = .ok "at://a/b" ∧
    AtURI.parse (.str "at://a/b") none = .ok ⟨some "a", "b", ""⟩ ∧
    (some "a" : Option String) ≠ some "a/b" :=
  ⟨rfl, rfl, by decide, by decide⟩

/-- Claim C6, counterexample: with a rooted, short reference but a base
that fails the lower-string scheme check, `parse` returns the base's scheme
error — the base is validated first and is not ignored. -/
theorem rooted_override_bad_base_counterexample :
    AtURI.parse (.str "at://b.example/x")
        (some (.str "http://a.example/y/z")) =
      .error "Bad protocol 'http:', must be 'at:'" ∧
    AtURI.parse (.str "at://b.example/x")
        (some (.str "http://a.example/y/z")) ≠
      .ok ⟨some "b.example", "x", ""⟩ :=
  ⟨by decide, by decide⟩

/-- Claim C7, counterexample: with a one-segment relative reference and a
rooted base of five significant segments, `parse` fails with the lower
arity error instead of keeping the base's authority and overlaying the
tail. -/
theorem relative_merge_long_base_counterexample :
    AtURI.parse (.str "x") (some (.str "at://a/b/c/d")) =
      .error "Lower part count 5 is greater than the maximum of 4" ∧
    AtURI.parse (.str "x") (some (.str "at://a/b/c/d")) ≠
      .ok ⟨some "a", "x", "c"⟩ :=
  ⟨by decide, by decide⟩

/-- Claim C3: constructing with a truthy `collection` and falsy `authority`
fails, constructing with a truthy `rkey` and falsy `collection` fails, and
every `AtURI` produced by the constructor or by `parse` (on any inputs)
satisfies both implications: non-empty `collection` implies truthy
`authority`, and non-empty `rkey` implies non-empty `collection`. -/
theorem construction_invariants :
    (∀ a c r : Option String,
      (jsTruthy c = true → jsTruthy a = false →
        AtURI.make a c r = .error "collection w/o authority") ∧
      (jsTruthy r = true → jsTruthy c = false →
        AtURI.make a c r = .error "rkey w/o collection") ∧
      (∀ v : AtURI, AtURI.make a c r = .ok v →
        (v.collection ≠ "" → jsTruthy v.authority = true) ∧
        (v.rkey ≠ "" → v.collection ≠ ""))) ∧
    (∀ (u : StrInput) (b : Option StrInput) (v : AtURI),
      AtURI.parse u b = .ok v →
        (v.collection ≠ "" → jsTruthy v.authority = true) ∧
        (v.rkey ≠ "" → v.collection ≠ "")) := by
  have main : ∀ (a c r : Option String) (v : AtURI), AtURI.make a c r = .ok v →
      (v.collection ≠ "" → jsTruthy v.authority = true) ∧
      (v.rkey ≠ "" → v.collection ≠ "") := by
    intro a c r v h
    obtain ⟨hv, h1, h2⟩ := make_ok_fields a c r v h
    subst hv
    constructor
    · intro hcol
      have hc : jsTruthy c = true := (jsTruthy_getD c).mpr hcol
      rcases Bool.and_eq_false_iff.mp h1 with h | h
      · simpa using h
      · exact absurd hc (by simp [h])
    · intro hrk
      have hr : jsTruthy r = true := (jsTruthy_getD r).mpr hrk
      rcases Bool.and_eq_false_iff.mp h2 with h | h
      · exact (jsTruthy_getD c).mp (by simpa using h)
      · exact absurd hr (by simp [h])
  refine ⟨fun a c r => ⟨?_, ?_, main a c r⟩, ?_⟩
  · intro hc ha
    rw [AtURI.make, if_pos (by simp [ha, hc])]
  · intro hr hc
    rw [AtURI.make, if_neg (by simp [hc]), if_pos (by simp [hc, hr])]
  · intro u b v h
    rw [AtURI.parse] at h
    split at h
    · exact POutcome.noConfusion h
    · exact POutcome.noConfusion h
    · split at h
      · exact POutcome.noConfusion h
      · rename_i hm
        cases h
        exact main _ _ _ _ hm

/-- Claim C3 witness: the invariant theorem applied at concrete inputs —
`new AtURI("", "c")` and `new AtURI("a", undefined, "r")` both throw, and a
fully populated constructor call and a full `parse` both satisfy the
invariants. -/
theorem construction_invariants_witness :
    AtURI.make (some "") (some "c") none = .error "collection w/o authority" ∧
    AtURI.make (some "a") none (some "r") = .error "rkey w/o collection" ∧
    ((AtURI.collection ⟨some "a", "c", "r"⟩ ≠ "" →
        jsTruthy (AtURI.authority ⟨some "a", "c", "r"⟩) = true) ∧
      (AtURI.rkey ⟨some "a", "c", "r"⟩ ≠ "" →
        AtURI.collection ⟨some "a", "c", "r"⟩ ≠ "")) :=
  ⟨(construction_invariants.1 (some "") (some "c") none).1 (by decide)
      (by decide),
    (construction_invariants.1 (some "a") none (some "r")).2.1 (by decide)
      (by decide),
    construction_invariants.2 (.str "at://a/c/r") none ⟨some "a", "c", "r"⟩
      (by decide)⟩

/-- Claim C8: the record-key validator accepts exactly the strings of 1 to
512 characters drawn from `A–Z a–z 0–9 . - _ ~ :`, returns the input
unchanged on acceptance and `null` on rejection (never throwing); the empty
string is rejected, a 512-character `a`-string accepted, a 513-character
one rejected. -/
theorem validateRecordKey_spec :
    (∀ s : String,
      (validateRecordKey s = some s ↔
        1 ≤ s.length ∧ s.length ≤ 512 ∧
          ∀ c ∈ s.data,
            ('A' ≤ c ∧ c ≤ 'Z') ∨ ('a' ≤ c ∧ c ≤ 'z') ∨
            ('0' ≤ c ∧ c ≤ '9') ∨ c = '.' ∨ c = '-' ∨ c = '_' ∨
            c = '~' ∨ c = ':') ∧
      (validateRecordKey s = some s ∨ validateRecordKey s = none)) ∧
    validateRecordKey "" = none ∧
    validateRecordKey (String.mk (List.replicate 512 'a')) =
      some (String.mk (List.replicate 512 'a')) ∧
    validateRecordKey (String.mk (List.replicate 513 'a')) = none := by
  refine ⟨fun s => ⟨?_, ?_⟩, by decide, by decide, by decide⟩
  · rw [validateRecordKey]
    have hlen : s.length = s.data.length := rfl
    by_cases h : (1 ≤ s.data.length && s.data.length ≤ 512 &&
        s.data.all rkeyCharOk) = true
    · rw [if_pos h]
      simp only [Bool.and_eq_true, List.all_eq_true, decide_eq_true_eq] at h
      simp only [true_iff, hlen]
      refine ⟨h.1.1, h.1.2, fun c hc => ?_⟩
      have h3 : 'A' ≤ c ∧ c ≤ 'Z' ∨ 'a' ≤ c ∧ c ≤ 'z' ∨
          '0' ≤ c ∧ c ≤ '9' ∨ c = '.' ∨ c = '-' ∨ c = '_' ∨
          c = ':' ∨ c = '~' := by
        simpa [rkeyCharOk, Bool.or_eq_true, Bool.and_eq_true,
          decide_eq_true_eq, or_assoc] using h.2 c hc
      tauto
    · rw [if_neg h]
      simp only [Bool.and_eq_true, List.all_eq_true, decide_eq_true_eq,
        not_and_or, not_forall] at h
      constructor
      · intro hfalse; exact Option.noConfusion hfalse
      · intro hspec
        exfalso
        rw [hlen] at hspec
        rcases h with (h | h) | h
        · exact h hspec.1
        · exact h hspec.2.1
        · obtain ⟨c, hc, hbad⟩ := h
          have h4 := hspec.2.2 c hc
          refine hbad ?_
          simp only [rkeyCharOk, Bool.or_eq_true, Bool.and_eq_true,
            decide_eq_true_eq, or_assoc]
          tauto
  · rw [validateRecordKey]
    by_cases h : (1 ≤ s.data.length && s.data.length ≤ 512 &&
        s.data.all rkeyCharOk) = true
    · rw [if_pos h]; exact Or.inl rfl
    · rw [if_neg h]; exact Or.inr rfl

/-- Claim C8 witness: the specification instantiated at `"abc"`. -/
theorem validateRecordKey_spec_witness :
    validateRecordKey "abc" = some "abc" :=
  (validateRecordKey_spec.1 "abc").1.mpr (by decide)

/-- Claim C10: when the base splits into a full four-slot reference and the
relative reference supplies exactly one non-`"at:"` segment, the overlay
replaces only the collection slot and the base's rkey survives. -/
theorem relative_merge_keeps_rkey (u b a c r x : String)
    (hb : splitNE b = ["at:", a, c, r]) (hu : splitNE u = [x])
    (hx : x ≠ "at:") :
    AtURI.parse (.str u) (some (.str b)) = .ok ⟨some a, x, r⟩ := by
  have hbne : b ≠ "" := by
    intro h; rw [h, splitNE_empty] at hb; exact List.noConfusion hb
  have hune : u ≠ "" := by
    intro h; rw [h, splitNE_empty] at hu; exact List.noConfusion hu
  have ha : a ≠ "" := splitNE_mem_ne_empty b a (hb ▸ by simp)
  have hx' : x ≠ "" := splitNE_mem_ne_empty u x (hu ▸ by simp)
  have hr' : r ≠ "" := splitNE_mem_ne_empty b r (hb ▸ by simp)
  have hser : AtURI.getSerialization (some u) (some b) =
      .ok [some "at:", some a, some x, some r] := by
    rw [AtURI.getSerialization]
    simp [Option.orElse, hb, hu, hbne, hune, hx, overlaySlots, setSlot]
  have hmk : AtURI.make (some a) (some x) (some r) = .ok ⟨some a, x, r⟩ := by
    rw [AtURI.make]
    simp [jsTruthy, ha, hx', hr']
  rw [AtURI.parse]
  show (match AtURI.getSerialization (some u) (some b) with
    | .fault => POutcome.fault
    | .error e => POutcome.error e
    | .ok parts =>
      match AtURI.make (parts.getD 1 none) (parts.getD 2 none)
          (parts.getD 3 none) with
      | .error m => POutcome.error m
      | .ok v => POutcome.ok v) = .ok ⟨some a, x, r⟩
  rw [hser]
  show (match AtURI.make (some a) (some x) (some r) with
    | .error m => POutcome.error m
    | .ok v => POutcome.ok v) = .ok ⟨some a, x, r⟩
  rw [hmk]

/-- Claim C10 witness: `parse("x", "at://a/c/r")` keeps the base's rkey. -/
theorem relative_merge_keeps_rkey_witness :
    AtURI.parse (.str "x") (some (.str "at://a/c/r")) =
      .ok ⟨some "a", "x", "r"⟩ :=
  relative_merge_keeps_rkey "x" "at://a/c/r" "a" "c" "r" "x" (by decide)
    (by decide) (by decide)

/-- Reduction of the resolver when no base is supplied and the single
string passes both lower checks. -/
theorem getSerialization_no_base (s : String)
    (h4 : ¬ (splitNE s).length > 4) (hat : (splitNE s).head? = some "at:") :
    AtURI.getSerialization (some s) none = .ok ((splitNE s).map some) := by
  rw [AtURI.getSerialization]
  simp [Option.orElse, h4, hat]

/-- Claim C2 (amended): for every `AtURI` constructed with a non-empty
authority (collection and rkey optional, subject to the construction
invariants), and whose components contain no `/` character, serialization
succeeds and re-parsing the string returns a value with identical fields —
hence re-serializing returns the same string. -/
theorem parse_toString_roundtrip (v : AtURI) (a : String)
    (hauth : v.authority = some a) (ha : a ≠ "")
    (hinv : v.rkey ≠ "" → v.collection ≠ "")
    (hsa : '/' ∉ a.data) (hsc : '/' ∉ v.collection.data)
    (hsr : '/' ∉ v.rkey.data) :
    ∃ s : String, v.toString = .ok s ∧ AtURI.parse (.str s) none = .ok v := by
  obtain ⟨auth, c, r⟩ := v
  dsimp only at hauth hinv hsc hsr ⊢
  subst hauth
  by_cases hc : c = ""
  · have hr : r = "" := by
      by_contra hrr
      exact (hinv hrr) hc
    subst hc; subst hr
    refine ⟨"at://" ++ a, ?_, ?_⟩
    · simp [AtURI.toString, jsTruthy, ha]
    · have hser : AtURI.getSerialization (some ("at://" ++ a)) none =
          .ok [some "at:", some a] := by
        rw [getSerialization_no_base ("at://" ++ a)
          (by rw [splitNE_auth a ha hsa]; simp)
          (by rw [splitNE_auth a ha hsa]; rfl)]
        rw [splitNE_auth a ha hsa]; rfl
      have hmk : AtURI.make (some a) none none = .ok ⟨some a, "", ""⟩ := by
        simp [AtURI.make, jsTruthy]
      rw [AtURI.parse]
      show (match AtURI.getSerialization (some ("at://" ++ a)) none with
        | .fault => POutcome.fault
        | .error e => POutcome.error e
        | .ok parts =>
          match AtURI.make (parts.getD 1 none) (parts.getD 2 none)
              (parts.getD 3 none) with
          | .error m => POutcome.error m
          | .ok w => POutcome.ok w) = .ok ⟨some a, "", ""⟩
      rw [hser]
      show (match AtURI.make (some a) none none with
        | .error m => POutcome.error m
        | .ok w => POutcome.ok w) = .ok ⟨some a, "", ""⟩
      rw [hmk]
  · by_cases hr : r = ""
    · subst hr
      refine ⟨"at://" ++ a ++ "/" ++ c, ?_, ?_⟩
      · simp [AtURI.toString, jsTruthy, ha, hc]
      · have hser : AtURI.getSerialization (some ("at://" ++ a ++ "/" ++ c))
            none = .ok [some "at:", some a, some c] := by
          rw [getSerialization_no_base ("at://" ++ a ++ "/" ++ c)
            (by rw [splitNE_auth_coll a c ha hc hsa hsc]; simp)
            (by rw [splitNE_auth_coll a c ha hc hsa hsc]; rfl)]
          rw [splitNE_auth_coll a c ha hc hsa hsc]; rfl
        have hmk : AtURI.make (some a) (some c) none = .ok ⟨some a, c, ""⟩ := by
          simp [AtURI.make, jsTruthy, ha]
        rw [AtURI.parse]
        show (match AtURI.getSerialization (some ("at://" ++ a ++ "/" ++ c))
            none with
          | .fault => POutcome.fault
          | .error e => POutcome.error e
          | .ok parts =>
            match AtURI.make (parts.getD 1 none) (parts.getD 2 none)
                (parts.getD 3 none) with
            | .error m => POutcome.error m
            | .ok w => POutcome.ok w) = .ok ⟨some a, c, ""⟩
        rw [hser]
        show (match AtURI.make (some a) (some c) none with
          | .error m => POutcome.error m
          | .ok w => POutcome.ok w) = .ok ⟨some a, c, ""⟩
        rw [hmk]
    · refine ⟨"at://" ++ a ++ "/" ++ c ++ "/" ++ r, ?_, ?_⟩
      · simp [AtURI.toString, jsTruthy, ha, hc, hr]
      · have hser : AtURI.getSerialization
            (some ("at://" ++ a ++ "/" ++ c ++ "/" ++ r)) none =
            .ok [some "at:", some a, some c, some r] := by
          rw [getSerialization_no_base ("at://" ++ a ++ "/" ++ c ++ "/" ++ r)
            (by rw [splitNE_full a c r ha hc hr hsa hsc hsr]; simp)
            (by rw [splitNE_full a c r ha hc hr hsa hsc hsr]; rfl)]
          rw [splitNE_full a c r ha hc hr hsa hsc hsr]; rfl
        have hmk : AtURI.make (some a) (some c) (some r) =
            .ok ⟨some a, c, r⟩ := by
          simp [AtURI.make, jsTruthy, ha, hc]
        rw [AtURI.parse]
        show (match AtURI.getSerialization
            (some ("at://" ++ a ++ "/" ++ c ++ "/" ++ r)) none with
          | .fault => POutcome.fault
          | .error e => POutcome.error e
          | .ok parts =>
            match AtURI.make (parts.getD 1 none) (parts.getD 2 none)
                (parts.getD 3 none) with
            | .error m => POutcome.error m
            | .ok w => POutcome.ok w) = .ok ⟨some a, c, r⟩
        rw [hser]
        show (match AtURI.make (some a) (some c) (some r) with
          | .error m => POutcome.error m
          | .ok w => POutcome.ok w) = .ok ⟨some a, c, r⟩
        rw [hmk]

/-- Claim C2 witness: the round-trip theorem instantiated on a fully
populated value. -/
theorem parse_toString_roundtrip_witness :
    ∃ s : String,
      AtURI.toString ⟨some "a.example", "com.example.x", "rk1"⟩ = .ok s ∧
      AtURI.parse (.str s) none =
        .ok ⟨some "a.example", "com.example.x", "rk1"⟩ :=
  parse_toString_roundtrip ⟨some "a.example", "com.example.x", "rk1"⟩
    "a.example" rfl (by decide) (fun _ => by decide) (by decide) (by decide)
    (by decide)

/-- Claim C6 (amended): when both strings are given, the reference is
rooted (first significant segment `"at:"`) with at most 4 segments, and the
base itself passes the lower-string checks (non-empty, at most 4 segments,
first segment `"at:"`), the outcome is built entirely from the reference:
it equals the result of parsing the reference with no base at all. -/
theorem rooted_override_valid_base (u b : String)
    (hb4 : ¬ (splitNE b).length > 4) (hbat : (splitNE b).head? = some "at:")
    (hu4 : ¬ (splitNE u).length > 4) (huat : (splitNE u).head? = some "at:") :
    AtURI.parse (.str u) (some (.str b)) = AtURI.parse (.str u) none ∧
    AtURI.parse (.str "at://b.example/x")
        (some (.str "at://a.example/y/z")) =
      .ok ⟨some "b.example", "x", ""⟩ := by
  have hbne : b ≠ "" := by
    intro h; rw [h, splitNE_empty] at hbat; exact Option.noConfusion hbat
  have hune : u ≠ "" := by
    intro h; rw [h, splitNE_empty] at huat; exact Option.noConfusion huat
  have h1 : AtURI.getSerialization (some u) (some b) =
      .ok ((splitNE u).map some) := by
    rw [AtURI.getSerialization]
    simp [Option.orElse, hb4, hbat, hbne, hune, huat, hu4]
  have h2 : AtURI.getSerialization (some u) none =
      .ok ((splitNE u).map some) := getSerialization_no_base u hu4 huat
  refine ⟨?_, by decide⟩
  rw [AtURI.parse, AtURI.parse]
  show (match AtURI.getSerialization (some u) (some b) with
    | .fault => POutcome.fault
    | .error e => POutcome.error e
    | .ok parts =>
      match AtURI.make (parts.getD 1 none) (parts.getD 2 none)
          (parts.getD 3 none) with
      | .error m => POutcome.error m
      | .ok w => POutcome.ok w) =
    (match AtURI.getSerialization (some u) none with
    | .fault => POutcome.fault
    | .error e => POutcome.error e
    | .ok parts =>
      match AtURI.make (parts.getD 1 none) (parts.getD 2 none)
          (parts.getD 3 none) with
      | .error m => POutcome.error m
      | .ok w => POutcome.ok w)
  rw [h1, h2]

/-- Claim C6 witness: the override theorem instantiated on the spec's
example pair. -/
theorem rooted_override_valid_base_witness :
    AtURI.parse (.str "at://b.example/x")
        (some (.str "at://a.example/y/z")) =
      AtURI.parse (.str "at://b.example/x") none :=
  (rooted_override_valid_base "at://b.example/x" "at://a.example/y/z"
    (by decide) (by decide) (by decide) (by decide)).1

/-- Claim C5: on string inputs the segment resolver fails exactly when one
of the four conditions holds — lower has more than 4 significant segments;
lower's first segment is not `"at:"`; a rooted upper has more than 4
segments; a non-rooted upper has more than 2 segments — and it never
raises an uncatchable fault. -/
theorem getSerialization_error_iff (u : String) (base : Option String) :
    AtURI.getSerialization (some u) base ≠ POutcome.fault ∧
    ((∃ e, AtURI.getSerialization (some u) base = POutcome.error e) ↔
      ((splitNE (base.getD u)).length > 4 ∨
       (splitNE (base.getD u)).head? ≠ some "at:" ∨
       (base.isSome = true ∧
         (((splitNE u).head? = some "at:" ∧ (splitNE u).length > 4) ∨
          ((splitNE u).head? ≠ some "at:" ∧ (splitNE u).length > 2))))) := by
  cases base with
  | none =>
    by_cases h1 : (splitNE u).length > 4
    · have hr : AtURI.getSerialization (some u) none =
          .error ("Lower part count " ++ toString (splitNE u).length ++
            " is greater than the maximum of 4") := by
        rw [AtURI.getSerialization]
        simp [Option.orElse, h1]
      simp [hr, h1]
    · by_cases h2 : (splitNE u).head? = some "at:"
      · have hr := getSerialization_no_base u h1 h2
        simp [hr, h1, h2]
      · have hr : AtURI.getSerialization (some u) none =
            .error ("Bad protocol '" ++ jsTemplate (splitNE u).head? ++
              "', must be 'at:'") := by
          rw [AtURI.getSerialization]
          simp [Option.orElse, h1, h2]
        simp [hr, h1, h2]
  | some b =>
    by_cases h1 : (splitNE b).length > 4
    · have hr : AtURI.getSerialization (some u) (some b) =
          .error ("Lower part count " ++ toString (splitNE b).length ++
            " is greater than the maximum of 4") := by
        rw [AtURI.getSerialization]
        simp [Option.orElse, h1]
      simp [hr, h1]
    · by_cases h2 : (splitNE b).head? = some "at:"
      · have hb0 : b ≠ "" := by
          intro h; rw [h, splitNE_empty] at h2; exact Option.noConfusion h2
        by_cases hu0 : u = ""
        · subst hu0
          have hr : AtURI.getSerialization (some "") (some b) =
              .ok ((splitNE b).map some) := by
            rw [AtURI.getSerialization]
            simp [Option.orElse, h1, h2, hb0]
          simp [hr, h1, h2, splitNE_empty]
        · by_cases h3 : (splitNE u).head? = some "at:"
          · by_cases h4 : (splitNE u).length > 4
            · have hr : AtURI.getSerialization (some u) (some b) =
                  .error ("part count > 4 in rooted upper '" ++ u ++ "'") := by
                rw [AtURI.getSerialization]
                simp [Option.orElse, h1, h2, hb0, hu0, h3, h4]
              simp [hr, h1, h2, h3, h4]
            · have hr : AtURI.getSerialization (some u) (some b) =
                  .ok ((splitNE u).map some) := by
                rw [AtURI.getSerialization]
                simp [Option.orElse, h1, h2, hb0, hu0, h3, h4]
              simp [hr, h1, h2, h3, h4]
          · by_cases h5 : (splitNE u).length > 2
            · have hr : AtURI.getSerialization (some u) (some b) =
                  .error ("too many parts in upper w/o authority '" ++ u ++
                    "'") := by
                rw [AtURI.getSerialization]
                simp [Option.orElse, h1, h2, hb0, hu0, h3, h5]
              simp [hr, h1, h2, h3, h5]
            · have hr : AtURI.getSerialization (some u) (some b) =
                  .ok (overlaySlots ((splitNE b).map some) (splitNE u)) := by
                rw [AtURI.getSerialization]
                simp [Option.orElse, h1, h2, hb0, hu0, h3, h5]
              simp [hr, h1, h2, h3, h5]
      · have hr : AtURI.getSerialization (some u) (some b) =
            .error ("Bad protocol '" ++ jsTemplate (splitNE b).head? ++
              "', must be 'at:'") := by
          rw [AtURI.getSerialization]
          simp [Option.orElse, h1, h2]
        simp [hr, h1, h2]

/-- Claim C5 witness: the characterisation instantiated at a relative upper
with three segments over a valid base — the resolver returns a typed error
and no fault. -/
theorem getSerialization_error_iff_witness :
    AtURI.getSerialization (some "x/y/z") (some "at://a") ≠
      POutcome.fault ∧
    (∃ e, AtURI.getSerialization (some "x/y/z") (some "at://a") =
      POutcome.error e) :=
  ⟨(getSerialization_error_iff "x/y/z" (some "at://a")).1,
    (getSerialization_error_iff "x/y/z" (some "at://a")).2.mpr
      (by right; right; exact ⟨rfl, Or.inr (by decide)⟩)⟩

/-! ## Slot-access lemmas for the overlay loop -/

theorem getD_set_self {α : Type} (l : List α) (i : Nat) (a d : α)
    (h : i < l.length) : (l.set i a).getD i d = a := by
  induction l generalizing i with
  | nil => simp at h
  | cons x xs ih =>
    cases i with
    | zero => rfl
    | succ n => exact ih n (by simpa using h)

theorem getD_set_ne {α : Type} (l : List α) (i j : Nat) (a d : α)
    (h : i ≠ j) : (l.set i a).getD j d = l.getD j d := by
  induction l generalizing i j with
  | nil => rfl
  | cons x xs ih =>
    cases i with
    | zero =>
      cases j with
      | zero => exact absurd rfl h
      | succ m => rfl
    | succ n =>
      cases j with
      | zero => rfl
      | succ m => exact ih n m (fun hh => h (by rw [hh]))

theorem getD_append_lt {α : Type} (l₁ l₂ : List α) (i : Nat) (d : α)
    (h : i < l₁.length) : (l₁ ++ l₂).getD i d = l₁.getD i d := by
  induction l₁ generalizing i with
  | nil => simp at h
  | cons x xs ih =>
    cases i with
    | zero => rfl
    | succ n => exact ih n (by simpa using h)

theorem getD_append_ge {α : Type} (l₁ l₂ : List α) (k : Nat) (d : α) :
    (l₁ ++ l₂).getD (l₁.length + k) d = l₂.getD k d := by
  induction l₁ with
  | nil => simp
  | cons x xs ih =>
    have hidx : (x :: xs).length + k = (xs.length + k) + 1 := by
      simp [List.length_cons]; omega
    rw [hidx]
    exact ih

theorem getD_ge {α : Type} (l : List α) (j : Nat) (d : α)
    (h : l.length ≤ j) : l.getD j d = d := by
  induction l generalizing j with
  | nil => rfl
  | cons x xs ih =>
    cases j with
    | zero => simp at h
    | succ n => exact ih n (by simpa using h)

theorem getD_replicate_lt {α : Type} (n k : Nat) (a d : α) (h : k < n) :
    (List.replicate n a).getD k d = a := by
  induction n generalizing k with
  | zero => omega
  | succ m ih =>
    cases k with
    | zero => rfl
    | succ j => exact ih j (by omega)

theorem getD_replicate_append {α : Type} (n : Nat) (a x d : α) :
    (List.replicate n a ++ [x]).getD n d = x := by
  induction n with
  | zero => rfl
  | succ m ih => exact ih

theorem getD_setSlot_self (l : List (Option String)) (i : Nat) (v : String) :
    (setSlot l i v).getD i none = some v := by
  rw [setSlot]
  by_cases h : i < l.length
  · rw [if_pos h]
    exact getD_set_self l i (some v) none h
  · rw [if_neg h]
    push_neg at h
    obtain ⟨n, rfl⟩ : ∃ n, i = l.length + n := ⟨i - l.length, by omega⟩
    have hn : l.length + n - l.length = n := by omega
    rw [hn, List.append_assoc, getD_append_ge, getD_replicate_append]

theorem getD_setSlot_ne (l : List (Option String)) (i j : Nat) (v : String)
    (hij : i ≠ j) : (setSlot l i v).getD j none = l.getD j none := by
  rw [setSlot]
  by_cases h : i < l.length
  · rw [if_pos h]
    exact getD_set_ne l i j (some v) none hij
  · rw [if_neg h]
    push_neg at h
    obtain ⟨n, rfl⟩ : ∃ n, i = l.length + n := ⟨i - l.length, by omega⟩
    have hn : l.length + n - l.length = n := by omega
    rw [hn, List.append_assoc]
    by_cases hj : j < l.length
    · rw [getD_append_lt _ _ _ _ hj]
    · push_neg at hj
      rw [getD_ge l j none hj]
      obtain ⟨m, rfl⟩ : ∃ m, j = l.length + m := ⟨j - l.length, by omega⟩
      have hmn : m ≠ n := by omega
      rw [getD_append_ge]
      by_cases hm : m < n
      · rw [getD_append_lt _ _ _ _ (by simpa using hm)]
        exact getD_replicate_lt _ _ _ _ hm
      · refine getD_ge _ _ _ ?_
        simp
        omega

theorem getD_map_some (l : List String) (i : Nat) :
    (l.map some).getD i none = l.get? i := by
  induction l generalizing i with
  | nil => cases i <;> rfl
  | cons x xs ih =>
    cases i with
    | zero => rfl
    | succ n => exact ih n

theorem overlaySlots_nil (l : List (Option String)) :
    overlaySlots l [] = l := rfl

theorem overlaySlots_one (l : List (Option String)) (x : String) :
    overlaySlots l [x] = setSlot l 2 x := rfl

theorem overlaySlots_two (l : List (Option String)) (x y : String) :
    overlaySlots l [x, y] = setSlot (setSlot l 2 x) 3 y := rfl

/-- Claim C7 (amended): with a non-rooted reference of at most 2 segments
and a base that passes the lower checks (first segment `"at:"`, at most 4
segments), the resolver succeeds with the overlay of the reference's
segments onto the base's at indexes 2 and 3: slot 0 keeps the base's scheme
token, slot 1 the base's authority, and slots 2 and 3 take the reference's
segments when supplied, the base's otherwise. `parse` of the spec's example
pair resolves accordingly. -/
theorem relative_merge_overlay (u b : String)
    (hunr : (splitNE u).head? ≠ some "at:") (hu2 : ¬ (splitNE u).length > 2)
    (hbat : (splitNE b).head? = some "at:") (hb4 : ¬ (splitNE b).length > 4) :
    AtURI.getSerialization (some u) (some b) =
      .ok (overlaySlots ((splitNE b).map some) (splitNE u)) ∧
    ((overlaySlots ((splitNE b).map some) (splitNE u)).getD 0 none =
        some "at:" ∧
      (overlaySlots ((splitNE b).map some) (splitNE u)).getD 1 none =
        (splitNE b).get? 1 ∧
      (overlaySlots ((splitNE b).map some) (splitNE u)).getD 2 none =
        ((splitNE u).get? 0).orElse (fun _ => (splitNE b).get? 2) ∧
      (overlaySlots ((splitNE b).map some) (splitNE u)).getD 3 none =
        ((splitNE u).get? 1).orElse (fun _ => (splitNE b).get? 3)) ∧
    AtURI.parse (.str "com.example.thing") (some (.str "at://a.example")) =
      .ok ⟨some "a.example", "com.example.thing", ""⟩ := by
  have hbne : b ≠ "" := by
    intro h; rw [h, splitNE_empty] at hbat; exact Option.noConfusion hbat
  have hres : AtURI.getSerialization (some u) (some b) =
      .ok (overlaySlots ((splitNE b).map some) (splitNE u)) := by
    by_cases hu0 : u = ""
    · subst hu0
      rw [AtURI.getSerialization]
      simp [Option.orElse, hb4, hbat, hbne, splitNE_empty, overlaySlots_nil]
    · rw [AtURI.getSerialization]
      simp [Option.orElse, hb4, hbat, hbne, hu0, hunr, hu2]
  refine ⟨hres, ?_, by decide⟩
  obtain ⟨bs, hsb⟩ : ∃ bs, splitNE b = "at:" :: bs := by
    cases hsb : splitNE b with
    | nil => rw [hsb] at hbat; exact absurd hbat (by simp)
    | cons x xs =>
      rw [hsb] at hbat
      simp only [List.head?_cons, Option.some.injEq] at hbat
      exact ⟨xs, by rw [hbat]⟩
  rw [hsb]
  rcases hsu : splitNE u with _ | ⟨x, _ | ⟨y, _ | ⟨z, zs⟩⟩⟩
  · refine ⟨rfl, getD_map_some _ 1, getD_map_some _ 2, getD_map_some _ 3⟩
  · refine ⟨?_, ?_, ?_, ?_⟩
    · rw [overlaySlots_one, getD_setSlot_ne _ 2 0 _ (by omega)]
      rfl
    · rw [overlaySlots_one, getD_setSlot_ne _ 2 1 _ (by omega)]
      exact getD_map_some _ 1
    · rw [overlaySlots_one]
      exact getD_setSlot_self _ 2 x
    · rw [overlaySlots_one, getD_setSlot_ne _ 2 3 _ (by omega)]
      exact getD_map_some _ 3
  · refine ⟨?_, ?_, ?_, ?_⟩
    · rw [overlaySlots_two, getD_setSlot_ne _ 3 0 _ (by omega),
        getD_setSlot_ne _ 2 0 _ (by omega)]
      rfl
    · rw [overlaySlots_two, getD_setSlot_ne _ 3 1 _ (by omega),
        getD_setSlot_ne _ 2 1 _ (by omega)]
      exact getD_map_some _ 1
    · rw [overlaySlots_two, getD_setSlot_ne _ 3 2 _ (by omega)]
      exact getD_setSlot_self _ 2 x
    · rw [overlaySlots_two]
      exact getD_setSlot_self _ 3 y
  · exfalso
    rw [hsu] at hu2
    simp at hu2

/-- Claim C7 witness: the merge theorem instantiated on the spec's example
pair. -/
theorem relative_merge_overlay_witness :
    AtURI.parse (.str "com.example.thing") (some (.str "at://a.example")) =
      .ok ⟨some "a.example", "com.example.thing", ""⟩ :=
  (relative_merge_overlay "com.example.thing" "at://a.example" (by decide)
    (by decide) (by decide) (by decide)).2.2

end ATCommon
